import Mathlib

/-!
Shallow embedding of the ChronoPlan recurrence/conflict/reminder engine.

The embedding models the TypeScript sources:
  * `recurrenceService` : `generateRecurringTasks`, `parseVirtualId`;
  * the `App` handlers : `checkConflict`, `handleBatchImport`,
    `handleToggleComplete`, `checkReminders`.

Representation choices:
  * a JS `Date` is its millisecond timestamp (an integer, UTC, no DST);
    ISO date-strings stored in task records are identified with the date
    they parse to, except where the code compares raw strings
    (`completedInstances`, virtual ids), where we render the actual ISO
    string as a list of characters;
  * JS strings are lists of characters (`JString`);
  * optional JS fields are `Option`s; the JS `||` default on numbers is
    modelled by `jsOrNum` (0 is falsy).
-/

namespace ChronoPlan

abbrev JString := List Char

/-- A JS `Date`: milliseconds since the Unix epoch. -/
structure JSDate where
  time : Int
deriving DecidableEq, Repr

def msPerDay : Int := 86400000

/-- Hinnant's `days_from_civil`: days since 1970-01-01 of year/month/day.
Linear in `d`, so out-of-range days roll over exactly as JS `Date` field
setters do. -/
def daysFromCivil (y m d : Int) : Int :=
  let y' := if m ≤ 2 then y - 1 else y
  let era := y'.fdiv 400
  let yoe := y' - era * 400
  let mp := if 2 < m then m - 3 else m + 9
  let doy := (153 * mp + 2).fdiv 5 + d - 1
  let doe := yoe * 365 + yoe.fdiv 4 - yoe.fdiv 100 + doy
  era * 146097 + doe - 719468

/-- Hinnant's `civil_from_days`: year/month/day of a day count since the
epoch. -/
def civilFromDays (z : Int) : Int × Int × Int :=
  let z' := z + 719468
  let era := z'.fdiv 146097
  let doe := z' - era * 146097
  let yoe := (doe - doe.fdiv 1460 + doe.fdiv 36524 - doe.fdiv 146096).fdiv 365
  let y := yoe + era * 400
  let doy := doe - (365 * yoe + yoe.fdiv 4 - yoe.fdiv 100)
  let mp := (5 * doy + 2).fdiv 153
  let d := doy - (153 * mp + 2).fdiv 5 + 1
  let m := if mp < 10 then mp + 3 else mp - 9
  (if m ≤ 2 then y + 1 else y, m, d)

def civilY (z : Int) : Int := (civilFromDays z).1
def civilM (z : Int) : Int := (civilFromDays z).2.1
def civilD (z : Int) : Int := (civilFromDays z).2.2

/-- JS `setDate(getDate() + n)` : adding `n` days in a DST-free timeline. -/
def JSDate.addDays (dt : JSDate) (n : Int) : JSDate :=
  ⟨dt.time + n * msPerDay⟩

/-- JS `setMonth(getMonth() + n)` : month arithmetic; month overflow is
normalized and an out-of-range day-of-month rolls into the next month. -/
def JSDate.addMonths (dt : JSDate) (n : Int) : JSDate :=
  let days := dt.time.fdiv msPerDay
  let tod := dt.time.emod msPerDay
  let total := civilY days * 12 + (civilM days - 1) + n
  ⟨(daysFromCivil (total.fdiv 12) (total.emod 12 + 1) (civilD days)) * msPerDay + tod⟩

/-- JS `setFullYear(getFullYear() + n)` : year arithmetic (Feb 29 rolls to
Mar 1 in a non-leap target year). -/
def JSDate.addYears (dt : JSDate) (n : Int) : JSDate :=
  let days := dt.time.fdiv msPerDay
  let tod := dt.time.emod msPerDay
  ⟨(daysFromCivil (civilY days + n) (civilM days) (civilD days)) * msPerDay + tod⟩

/-- One decimal digit as a character. -/
def digitChar (d : Nat) : Char :=
  match d with
  | 0 => '0' | 1 => '1' | 2 => '2' | 3 => '3' | 4 => '4'
  | 5 => '5' | 6 => '6' | 7 => '7' | 8 => '8' | 9 => '9'
  | _ => '0'

/-- Fuelled accumulator loop producing the decimal digits of `n` before
`acc`. -/
def natDigitsGo : Nat → Nat → List Char → List Char
  | 0, _, acc => acc
  | fuel + 1, n, acc =>
    if n = 0 then acc else natDigitsGo fuel (n / 10) (digitChar (n % 10) :: acc)

/-- Decimal rendering of a natural number. -/
def natDigits (n : Nat) : List Char :=
  if n = 0 then ['0'] else natDigitsGo (n + 1) n []

/-- Left-pad the decimal rendering of `n` with zeros to width `w`. -/
def padNum (w : Nat) (n : Nat) : List Char :=
  List.replicate (w - (natDigits n).length) '0' ++ natDigits n

/-- The year field of `toISOString`: four digits for 0..9999, otherwise the
expanded signed six-digit form. -/
def yearChars (y : Int) : List Char :=
  if 0 ≤ y ∧ y ≤ 9999 then padNum 4 y.toNat
  else (if y < 0 then '-' else '+') :: padNum 6 y.natAbs

/-- JS `Date.prototype.toISOString` (UTC). -/
def JSDate.toISOString (dt : JSDate) : JString :=
  let days := dt.time.fdiv msPerDay
  let tod := dt.time.emod msPerDay
  yearChars (civilY days) ++
  '-' :: padNum 2 (civilM days).toNat ++
  '-' :: padNum 2 (civilD days).toNat ++
  'T' :: padNum 2 (tod.fdiv 3600000).toNat ++
  ':' :: padNum 2 ((tod.emod 3600000).fdiv 60000).toNat ++
  ':' :: padNum 2 ((tod.emod 60000).fdiv 1000).toNat ++
  '.' :: padNum 3 (tod.emod 1000).toNat ++
  ['Z']

inductive Priority where
  | high | medium | low
deriving DecidableEq, Repr

inductive RecurrenceFrequency where
  | none | daily | weekly | monthly | yearly
deriving DecidableEq, Repr

structure RecurrenceConfig where
  frequency : RecurrenceFrequency
  interval : Option Int
  «until» : Option JSDate
deriving DecidableEq, Repr

structure Task where
  id : JString
  title : JString
  description : JString
  start : JSDate
  «end» : JSDate
  priority : Priority
  reminderMinutes : Int
  completed : Bool
  recurrence : Option RecurrenceConfig
  completedInstances : Option (List JString)
deriving DecidableEq, Repr

/-- JS `String.prototype.split('::')`: split on every non-overlapping,
leftmost-first occurrence of the two-character separator. -/
def splitDC : List Char → List (List Char)
  | [] => [[]]
  | [c] => [[c]]
  | c :: c' :: rest =>
    if c = ':' ∧ c' = ':' then [] :: splitDC rest
    else
      match splitDC (c' :: rest) with
      | [] => [[c]]
      | h :: t => (c :: h) :: t

/-- The `parseVirtualId` helper of `recurrenceService`: the pair
`{ originalId, instanceDate }`. -/
def parseVirtualId (virtualId : JString) : JString × Option JString :=
  match splitDC virtualId with
  | [a, b] => (a, some b)
  | _ => (virtualId, none)

/-- The virtual-id template literal `` `${task.id}::${startIso}` ``. -/
def encodeVirtualId (id : JString) (d : JSDate) : JString :=
  id ++ ':' :: ':' :: d.toISOString

/-- No two adjacent colons: a string with this property contains no
occurrence of the `::` separator. -/
def noDC : List Char → Bool
  | [] => true
  | [_] => true
  | c :: c' :: rest => if c = ':' ∧ c' = ':' then false else noDC (c' :: rest)

/-! ## Occurrence expander (`generateRecurringTasks`) -/

/-- The loop guard `!untilDate || currentStart <= untilDate`. -/
def untilOk (untilDate : Option JSDate) (s : JSDate) : Bool :=
  match untilDate with
  | Option.none => true
  | some u => s.time ≤ u.time

/-- The `switch (frequency)` advance at the bottom of the expansion loop.
`RecurrenceFrequency.none` has no case in the `switch`, so the start is
left unchanged. -/
def stepDate (frequency : RecurrenceFrequency) (interval : Int) (d : JSDate) : JSDate :=
  match frequency with
  | .daily => d.addDays interval
  | .weekly => d.addDays (7 * interval)
  | .monthly => d.addMonths interval
  | .yearly => d.addYears interval
  | .none => d

/-- The `MAX_ITERATIONS` safety cap of the expansion loop. -/
def maxIterations : Nat := 1000

/-- The `while` loop of `generateRecurringTasks`, with the remaining
iteration budget (`MAX_ITERATIONS - iterations`) as fuel. -/
def expandLoop (task : Task) (rangeStart rangeEnd : JSDate)
    (frequency : RecurrenceFrequency) (interval : Int)
    (untilDate : Option JSDate) (taskDuration : Int) :
    Nat → JSDate → List Task
  | 0, _ => []
  | fuel + 1, currentStart =>
    if currentStart.time < rangeEnd.time ∧ untilOk untilDate currentStart then
      (if currentStart.time < rangeEnd.time ∧
          currentStart.time + taskDuration > rangeStart.time then
        [{ task with
            id := encodeVirtualId task.id currentStart
            start := currentStart
            «end» := ⟨currentStart.time + taskDuration⟩
            completed :=
              (task.completedInstances.getD []).contains currentStart.toISOString }]
      else []) ++
      expandLoop task rangeStart rangeEnd frequency interval untilDate taskDuration
        fuel (stepDate frequency interval currentStart)
    else []

/-- The body of the `tasks.forEach` in `generateRecurringTasks`. -/
def expandTask (rangeStart rangeEnd : JSDate) (task : Task) : List Task :=
  match task.recurrence with
  | Option.none =>
    if task.start.time < rangeEnd.time ∧ task.«end».time > rangeStart.time then
      [task]
    else []
  | some r =>
    if r.frequency = RecurrenceFrequency.none then
      if task.start.time < rangeEnd.time ∧ task.«end».time > rangeStart.time then
        [task]
      else []
    else
      expandLoop task rangeStart rangeEnd r.frequency (r.interval.getD 1) r.«until»
        (task.«end».time - task.start.time) maxIterations task.start

/-- The `generateRecurringTasks` entry point of `recurrenceService`. -/
def generateRecurringTasks (tasks : List Task) (rangeStart rangeEnd : JSDate) :
    List Task :=
  (tasks.map (expandTask rangeStart rangeEnd)).flatten

/-! ## Conflict detector (`checkConflict`) -/

/-- The `checkConflict` callback of `App`: does `task` overlap some member of the
visible pool from a different series, both uncompleted? -/
def checkConflict (task : Task) (visibleTasks : List Task) : Bool :=
  let currentOriginalId := (parseVirtualId task.id).1
  visibleTasks.any fun t =>
    if (parseVirtualId t.id).1 = currentOriginalId then false
    else if t.completed || task.completed then false
    else
      decide (task.start.time < t.«end».time) &&
      decide (task.«end».time > t.start.time)

/-! ## Batch import (`handleBatchImport`) -/

/-- An externally produced partial task record (`newTasks: any[]`): fields
the importer reads, optional where the source defends against absence. -/
structure ImportedTask where
  title : JString
  description : Option JString
  start : JSDate
  «end» : JSDate
  priority : Priority
  reminderMinutes : Option Int
  recurrence : Option RecurrenceConfig
  completed : Option Bool
deriving DecidableEq, Repr

/-- JS `x || d` on an optional number: `undefined`/`null` and `0` are
falsy. -/
def jsOrNum (v : Option Int) (d : Int) : Int :=
  match v with
  | Option.none => d
  | some x => if x = 0 then d else x

/-- JS `x || ''` on an optional string: absent strings default to empty
(an empty supplied string is already empty). -/
def jsOrStr (v : Option JString) : JString :=
  match v with
  | Option.none => []
  | some s => s

/-- The object literal built for each imported record inside
`handleBatchImport`, with the `crypto.randomUUID()` call determinized by
the record's position in the batch. -/
def formatImported (freshId : JString) (t : ImportedTask) : Task :=
  { id := freshId
    title := t.title
    description := jsOrStr t.description
    start := t.start
    «end» := t.«end»
    priority := t.priority
    reminderMinutes := jsOrNum t.reminderMinutes 15
    completed := false
    recurrence := t.recurrence
    completedInstances := Option.none }

/-- The `newTasks.map(...)` call with the fresh-id supply indexed by position. -/
def formatImportedFrom (freshId : Nat → JString) : Nat → List ImportedTask → List Task
  | _, [] => []
  | i, t :: rest => formatImported (freshId i) t :: formatImportedFrom freshId (i + 1) rest

/-- The `handleBatchImport` handler of `App`: format every record and append the
batch to the existing task list. -/
def handleBatchImport (freshId : Nat → JString) (newTasks : List ImportedTask)
    (prev : List Task) : List Task :=
  prev ++ formatImportedFrom freshId 0 newTasks

/-! ## Completion toggle (`handleToggleComplete`) -/

/-- The body of the `prev.map` inside `handleToggleComplete`: `parsed` is
the decoded virtual id of the toggled occurrence, `t` one stored task. -/
def toggleOne (parsed : JString × Option JString) (t : Task) : Task :=
  if t.id ≠ parsed.1 then t
  else
    match parsed.2 with
    | some instanceDate =>
      let completedInstances := t.completedInstances.getD []
      let isCompleted := completedInstances.contains instanceDate
      { t with
          completedInstances :=
            some (if isCompleted then
              completedInstances.filter (fun d => d ≠ instanceDate)
            else completedInstances ++ [instanceDate]) }
    | Option.none => { t with completed := !t.completed }

/-- The `handleToggleComplete` handler of `App`: toggle one occurrence (or one
non-recurring task) inside the task list. -/
def handleToggleComplete (tasks : List Task) (task : Task) : List Task :=
  tasks.map (toggleOne (parseVirtualId task.id))

/-! ## Reminder scanner (`checkReminders`) -/

/-- One input to a scanner tick: the persisted task list, today's window
(recomputed from the wall clock in the source, injected here), and the
tick's `now` in milliseconds. -/
structure TickInput where
  tasks : List Task
  todayStart : JSDate
  todayEnd : JSDate
  now : Int
deriving Repr

/-- The per-occurrence condition of `checkReminders`: not completed, not
yet notified, and `now` inside
`[start - reminderMinutes, start + 60 s)`. -/
def reminderDue (notified : List JString) (now : Int) (t : Task) : Bool :=
  !t.completed && !(notified.contains t.id) &&
  decide (now ≥ t.start.time - t.reminderMinutes * 60 * 1000) &&
  decide (now < t.start.time + 60000)

/-- One `checkReminders` tick: re-expand today's window, emit a reminder
for every due occurrence (the membership test reads the notified set as
of the start of the tick, as the closed-over React state does), and add
every emitted id to the notified set. -/
def checkRemindersTick (tick : TickInput) (notified : List JString) :
    List Task × List JString :=
  let tasksForReminders :=
    generateRecurringTasks tick.tasks tick.todayStart tick.todayEnd
  let emitted := tasksForReminders.filter (reminderDue notified tick.now)
  (emitted, notified ++ emitted.map (·.id))

/-- The scanner over a whole process lifetime: the per-tick emission
lists, threading the notified set from tick to tick. -/
def runTicks : List TickInput → List JString → List (List Task)
  | [], _ => []
  | tick :: rest, notified =>
    (checkRemindersTick tick notified).1 ::
    runTicks rest (checkRemindersTick tick notified).2

/-- The notified set after a sequence of ticks. -/
def notifiedAfter : List TickInput → List JString → List JString
  | [], notified => notified
  | tick :: rest, notified => notifiedAfter rest (checkRemindersTick tick notified).2

/-- Every reminder id emitted over a whole run, in emission order. -/
def emittedIds (ticks : List TickInput) (notified : List JString) : List JString :=
  ((runTicks ticks notified).map (fun em => em.map (fun t => t.id))).flatten


/-! ## Specification-side definitions

Stated from the words of the specification (for the refinement claim about
the expander), to be compared with the source-embedded definitions
above. -/

/-- Modelled from the spec: the candidate starts the expansion is said to
walk — `s0 = task.start`, `s(k+1) = step(sk)`, stopping as soon as
`sk >= windowEnd`, or `until` is set and `sk > until`, or the iteration
cap is exhausted.  All visited candidates are listed. -/
def specStarts (windowEnd : JSDate) (untilDate : Option JSDate)
    (frequency : RecurrenceFrequency) (interval : Int) :
    Nat → JSDate → List JSDate
  | 0, _ => []
  | fuel + 1, s =>
    if s.time < windowEnd.time ∧ untilOk untilDate s then
      s :: specStarts windowEnd untilDate frequency interval fuel
        (stepDate frequency interval s)
    else []

/-- Modelled from the spec: the occurrence emitted for a candidate start —
id is the series id, the two-colon separator and the ISO rendering of the
start; completion is the exact-string membership of that rendering in the
series' `completedInstances`; the span keeps the series' duration. -/
def specOccurrence (task : Task) (taskDuration : Int) (s : JSDate) : Task :=
  { task with
      id := task.id ++ ':' :: ':' :: s.toISOString
      start := s
      «end» := ⟨s.time + taskDuration⟩
      completed := (task.completedInstances.getD []).contains s.toISOString }

/-- Modelled from the spec: per-task expansion as the claim states it — a
non-recurring task is included iff `start < windowEnd ∧ end > windowStart`;
a recurring one emits exactly the visited candidates whose span overlaps
the window under the same half-open rule. -/
def specExpandTask (windowStart windowEnd : JSDate) (task : Task) : List Task :=
  match task.recurrence with
  | Option.none =>
    if task.start.time < windowEnd.time ∧ task.«end».time > windowStart.time then
      [task]
    else []
  | some r =>
    if r.frequency = RecurrenceFrequency.none then
      if task.start.time < windowEnd.time ∧ task.«end».time > windowStart.time then
        [task]
      else []
    else
      let taskDuration := task.«end».time - task.start.time
      ((specStarts windowEnd r.«until» r.frequency (r.interval.getD 1)
          maxIterations task.start).filter fun s =>
        decide (s.time < windowEnd.time) &&
        decide (s.time + taskDuration > windowStart.time)).map
        (specOccurrence task taskDuration)

/-- A daily 09:00–10:00 series starting at the epoch day, until Day2
23:59 (fixture for witnesses). -/
def exDaily : Task :=
  { id := "series1".toList
    title := "t".toList
    description := []
    start := ⟨32400000⟩
    «end» := ⟨36000000⟩
    priority := Priority.medium
    reminderMinutes := 15
    completed := false
    recurrence := some
      { frequency := RecurrenceFrequency.daily
        interval := some 1
        «until» := some ⟨259140000⟩ }
    completedInstances := Option.none }

/-- The same series with a zero recurrence interval and no `until` bound
(fixture for the interval-normalization counterexample). -/
def exZero : Task :=
  { exDaily with
      start := JSDate.mk 0
      «end» := JSDate.mk 86400000
      recurrence := some
        { frequency := RecurrenceFrequency.daily
          interval := some 0
          «until» := Option.none } }

/-- The same series with interval 1 and no `until` bound. -/
def exOne : Task :=
  { exZero with
      recurrence := some
        { frequency := RecurrenceFrequency.daily
          interval := some 1
          «until» := Option.none } }

/-- A non-recurring task spanning the whole first hundred milliseconds of
the epoch (fixture for the inverted-window counterexample). -/
def exPlain : Task :=
  { exDaily with
      start := JSDate.mk 0
      «end» := JSDate.mk 100
      recurrence := Option.none }

/-- The recurrence configuration of `exDaily`. -/
def cfgDailyUntil : RecurrenceConfig :=
  { frequency := RecurrenceFrequency.daily
    interval := some 1
    «until» := some ⟨259140000⟩ }

/-- A daily recurrence with no interval and no bound. -/
def cfgDailyNoInterval : RecurrenceConfig :=
  { frequency := RecurrenceFrequency.daily
    interval := Option.none
    «until» := Option.none }

/-- A single scanner tick at the epoch over the plain task (fixture). -/
def exTick : TickInput :=
  { tasks := [exPlain]
    todayStart := ⟨0⟩
    todayEnd := ⟨86399999⟩
    now := 0 }

/-- The daily series with no recurrence interval at all. -/
def exNoInterval : Task :=
  { exZero with recurrence := some cfgDailyNoInterval }

/-- The first materialized occurrence of `exDaily` (fixture for witnesses
that need a concrete member of an expansion). -/
def exDailyOcc0 : Task :=
  { exDaily with id := "series1::1970-01-01T09:00:00.000Z".toList }

/-- The fields of an occurrence that the recurrence walk determines:
identity, span and completion. -/
def occView (t : Task) : JString × JSDate × JSDate × Bool :=
  (t.id, t.start, t.«end», t.completed)

/-- An imported record that explicitly supplies `reminderMinutes = 0`
(fixture for the batch-import counterexample). -/
def exImported : ImportedTask :=
  { title := "t".toList
    description := Option.none
    start := ⟨0⟩
    «end» := ⟨100⟩
    priority := Priority.low
    reminderMinutes := some 0
    recurrence := Option.none
    completed := Option.none }

/-! # Theorems -/

example : parseVirtualId ("abc::xyz".toList) = ("abc".toList, some "xyz".toList) := by
  decide

example : parseVirtualId ("abc".toList) = ("abc".toList, none) := by decide

example : civilFromDays 0 = (1970, 1, 1) := by decide

example : (JSDate.mk 0).toISOString = "1970-01-01T00:00:00.000Z".toList := by decide

example : (JSDate.mk 86400000).addMonths 1 = ⟨2764800000⟩ := by decide

example :
    (generateRecurringTasks [exDaily] ⟨0⟩ ⟨432000000⟩).map (fun t => t.start.time) =
      [32400000, 118800000, 205200000] := by decide

example :
    (generateRecurringTasks [exDaily] ⟨0⟩ ⟨432000000⟩).map (fun t => t.id) =
      ["series1::1970-01-01T09:00:00.000Z".toList,
       "series1::1970-01-02T09:00:00.000Z".toList,
       "series1::1970-01-03T09:00:00.000Z".toList] := by decide

/-! ## Codec lemmas -/

theorem noDC_append_of_all :
    ∀ (l r : List Char), (∀ c ∈ l, c ≠ ':') → noDC (l ++ r) = noDC r
  | [], _, _ => rfl
  | [c], r, h => by
    have hc : c ≠ ':' := h c (by simp)
    cases r with
    | nil => simp [noDC]
    | cons c' r' => simp [noDC, hc]
  | c :: c' :: l, r, h => by
    have hc : c ≠ ':' := h c (by simp)
    have ih := noDC_append_of_all (c' :: l) r (fun x hx => h x (List.mem_cons_of_mem c hx))
    simpa [noDC, hc] using ih

theorem noDC_cons_of_ne (c : Char) (r : List Char) (h : c ≠ ':') :
    noDC (c :: r) = noDC r :=
  noDC_append_of_all [c] r (by simpa using h)

theorem noDC_colon_cons (r : List Char) (h : r.head? ≠ some ':') :
    noDC (':' :: r) = noDC r := by
  cases r with
  | nil => rfl
  | cons c' r' =>
    have hc : c' ≠ ':' := by simpa using h
    simp [noDC, hc]

theorem noDC_of_cons {c : Char} {r : List Char} (h : noDC (c :: r) = true) :
    noDC r = true := by
  cases r with
  | nil => rfl
  | cons c' r' =>
    by_cases hcc : c = ':' ∧ c' = ':'
    · simp [noDC, hcc] at h
    · simpa [noDC, hcc] using h

theorem not_both_colon_of_noDC {c c' : Char} {r : List Char}
    (h : noDC (c :: c' :: r) = true) : ¬(c = ':' ∧ c' = ':') := by
  by_cases hcc : c = ':' ∧ c' = ':'
  · simp [noDC, hcc] at h
  · exact hcc

theorem splitDC_of_noDC : ∀ (l : List Char), noDC l = true → splitDC l = [l]
  | [], _ => rfl
  | [_], _ => rfl
  | c :: c' :: rest, h => by
    have h1 := not_both_colon_of_noDC h
    have ih := splitDC_of_noDC (c' :: rest) (noDC_of_cons h)
    simp [splitDC, h1, ih]

theorem splitDC_append_sep :
    ∀ (a b : List Char), noDC a = true → a.getLast? ≠ some ':' →
      splitDC (a ++ ':' :: ':' :: b) = a :: splitDC b
  | [], b, _, _ => by simp [splitDC]
  | [c], b, _, hl => by
    have hc : c ≠ ':' := by simpa using hl
    simp [splitDC, hc]
  | c :: c' :: a, b, h, hl => by
    have h1 := not_both_colon_of_noDC h
    have hl' : (c' :: a).getLast? ≠ some ':' := by
      simpa [List.getLast?_cons_cons] using hl
    have ih := splitDC_append_sep (c' :: a) b (noDC_of_cons h) hl'
    simp only [List.cons_append] at ih ⊢
    simp [splitDC, h1, ih]

theorem digitChar_ne_colon (d : Nat) : digitChar d ≠ ':' := by
  unfold digitChar
  split <;> decide

theorem natDigitsGo_all :
    ∀ (fuel n : Nat) (acc : List Char), (∀ c ∈ acc, c ≠ ':') →
      ∀ c ∈ natDigitsGo fuel n acc, c ≠ ':'
  | 0, _, _, h => h
  | fuel + 1, n, acc, h => by
    by_cases hn : n = 0
    · simpa [natDigitsGo, hn] using h
    · have hacc : ∀ c ∈ digitChar (n % 10) :: acc, c ≠ ':' := by
        intro c hc
        rcases List.mem_cons.mp hc with hc | hc
        · exact hc ▸ digitChar_ne_colon _
        · exact h c hc
      simpa [natDigitsGo, hn] using natDigitsGo_all fuel (n / 10) _ hacc

theorem natDigits_all (n : Nat) : ∀ c ∈ natDigits n, c ≠ ':' := by
  unfold natDigits
  by_cases hn : n = 0
  · simp [hn]
  · simpa [hn] using natDigitsGo_all (n + 1) n [] (by simp)

theorem padNum_all (w n : Nat) : ∀ c ∈ padNum w n, c ≠ ':' := by
  intro c hc
  rcases List.mem_append.mp hc with hc | hc
  · rw [List.eq_of_mem_replicate hc]; decide
  · exact natDigits_all n c hc

theorem yearChars_all (y : Int) : ∀ c ∈ yearChars y, c ≠ ':' := by
  intro c hc
  unfold yearChars at hc
  split at hc
  · exact padNum_all 4 _ c hc
  · rcases List.mem_cons.mp hc with hc | hc
    · subst hc; split <;> decide
    · exact padNum_all 6 _ c hc

theorem natDigitsGo_ne_nil :
    ∀ (fuel n : Nat) (acc : List Char), acc ≠ [] → natDigitsGo fuel n acc ≠ []
  | 0, _, _, h => h
  | fuel + 1, n, acc, h => by
    by_cases hn : n = 0
    · simpa [natDigitsGo, hn] using h
    · simpa [natDigitsGo, hn] using natDigitsGo_ne_nil fuel (n / 10) _ (by simp)

theorem natDigits_ne_nil (n : Nat) : natDigits n ≠ [] := by
  unfold natDigits
  by_cases hn : n = 0
  · simp [hn]
  · have : natDigitsGo (n + 1) n [] = natDigitsGo n (n / 10) [digitChar (n % 10)] := by
      simp [natDigitsGo, hn]
    simpa [hn, this] using natDigitsGo_ne_nil n (n / 10) [digitChar (n % 10)] (by simp)

theorem padNum_ne_nil (w n : Nat) : padNum w n ≠ [] := by
  unfold padNum
  simp [natDigits_ne_nil n]

theorem head?_append_ne_colon (l r : List Char) (hne : l ≠ [])
    (hall : ∀ c ∈ l, c ≠ ':') : (l ++ r).head? ≠ some ':' := by
  cases l with
  | nil => exact absurd rfl hne
  | cons c l' =>
    have : c ≠ ':' := hall c (by simp)
    simpa using this

theorem toISOString_noDC (dt : JSDate) : noDC dt.toISOString = true := by
  unfold JSDate.toISOString
  simp only [List.cons_append, List.append_assoc]
  rw [noDC_append_of_all _ _ (yearChars_all _)]
  rw [noDC_cons_of_ne _ _ (by decide)]
  rw [noDC_append_of_all _ _ (padNum_all _ _)]
  rw [noDC_cons_of_ne _ _ (by decide)]
  rw [noDC_append_of_all _ _ (padNum_all _ _)]
  rw [noDC_cons_of_ne _ _ (by decide)]
  rw [noDC_append_of_all _ _ (padNum_all _ _)]
  rw [noDC_colon_cons _ (head?_append_ne_colon _ _ (padNum_ne_nil _ _) (padNum_all _ _))]
  rw [noDC_append_of_all _ _ (padNum_all _ _)]
  rw [noDC_colon_cons _ (head?_append_ne_colon _ _ (padNum_ne_nil _ _) (padNum_all _ _))]
  rw [noDC_append_of_all _ _ (padNum_all _ _)]
  rw [noDC_cons_of_ne _ _ (by decide)]
  rw [noDC_append_of_all _ _ (padNum_all _ _)]
  rfl

/-! ## C3: virtual-identity codec -/

/-- C3 (counterexample): `parseVirtualId` does not split on the *first*
occurrence of the separator.  On `"a::b::c"` the split produces three
parts, so the code returns the whole input with no instance date instead
of the pair `("a", "b::c")` the claim requires. -/
theorem parseVirtualId_first_split_cex :
    parseVirtualId ("a::b::c".toList) = ("a::b::c".toList, Option.none) ∧
      ("a::b::c".toList, (Option.none : Option JString)) ≠
        ("a".toList, some ("b::c".toList)) := by
  constructor
  · decide
  · decide

/-- C3 (amended): decoding returns the two parts exactly when the split on
`::` yields exactly two parts — in particular on every encoded id whose
series id has no adjacent colons and does not end in a colon — and an
input without the separator decodes to itself with no instance date; under
those conditions `decode ∘ encode` is the identity. -/
theorem parseVirtualId_amended (id s : JString) (t : JSDate)
    (h1 : noDC id = true) (h2 : id.getLast? ≠ some ':') (h3 : noDC s = true) :
    parseVirtualId (encodeVirtualId id t) = (id, some t.toISOString) ∧
      parseVirtualId s = (s, Option.none) := by
  constructor
  · unfold parseVirtualId encodeVirtualId
    rw [splitDC_append_sep id _ h1 h2, splitDC_of_noDC _ (toISOString_noDC t)]
  · unfold parseVirtualId
    rw [splitDC_of_noDC s h3]

/-! ## Expander lemmas -/

theorem expandLoop_eq_spec (task : Task) (ws we : JSDate)
    (freq : RecurrenceFrequency) (interval : Int) (untilD : Option JSDate)
    (dur : Int) :
    ∀ (fuel : Nat) (s : JSDate),
      expandLoop task ws we freq interval untilD dur fuel s =
        ((specStarts we untilD freq interval fuel s).filter fun x =>
            decide (x.time < we.time) && decide (x.time + dur > ws.time)).map
          (specOccurrence task dur)
  | 0, _ => rfl
  | fuel + 1, s => by
    have ih := expandLoop_eq_spec task ws we freq interval untilD dur fuel
      (stepDate freq interval s)
    by_cases hc : s.time < we.time ∧ untilOk untilD s
    · by_cases ho : s.time < we.time ∧ s.time + dur > ws.time
      · simp [expandLoop, specStarts, hc, ho, ih, specOccurrence, encodeVirtualId,
          ho.1, ho.2]
      · have ho2 : ¬(ws.time < s.time + dur) := fun hh => ho ⟨hc.1, hh⟩
        simp [expandLoop, specStarts, hc, hc.1, ho2, ih]
    · simp [expandLoop, specStarts, hc]

theorem expandTask_eq_spec (ws we : JSDate) (task : Task) :
    expandTask ws we task = specExpandTask ws we task := by
  unfold expandTask specExpandTask
  cases hr : task.recurrence with
  | none => rfl
  | some r =>
    by_cases hf : r.frequency = RecurrenceFrequency.none
    · simp [hf]
    · simp [hf, expandLoop_eq_spec]

theorem mem_expandLoop_overlap (task : Task) (ws we : JSDate)
    (freq : RecurrenceFrequency) (interval : Int) (untilD : Option JSDate)
    (dur : Int) :
    ∀ (fuel : Nat) (s : JSDate),
      ∀ o ∈ expandLoop task ws we freq interval untilD dur fuel s,
        o.start.time < we.time ∧ o.«end».time > ws.time ∧
          o.«end».time - o.start.time = dur
  | 0, s => by simp [expandLoop]
  | fuel + 1, s => by
    intro o ho
    by_cases hc : s.time < we.time ∧ untilOk untilD s
    · rw [expandLoop, if_pos hc] at ho
      rcases List.mem_append.mp ho with h1 | h2
      · by_cases hov : s.time < we.time ∧ s.time + dur > ws.time
        · rw [if_pos hov] at h1
          have := List.mem_singleton.mp h1
          subst this
          exact ⟨hov.1, hov.2, by show s.time + dur - s.time = dur; omega⟩
        · rw [if_neg hov] at h1
          exact absurd h1 (List.not_mem_nil o)
      · exact mem_expandLoop_overlap task ws we freq interval untilD dur fuel
          (stepDate freq interval s) o h2
    · rw [expandLoop, if_neg hc] at ho
      exact absurd ho (List.not_mem_nil o)

theorem mem_expandTask_overlap (ws we : JSDate) (task : Task) :
    ∀ o ∈ expandTask ws we task,
      o.start.time < we.time ∧ o.«end».time > ws.time := by
  intro o ho
  unfold expandTask at ho
  cases hr : task.recurrence with
  | none =>
    rw [hr] at ho
    dsimp only at ho
    by_cases hov : task.start.time < we.time ∧ task.«end».time > ws.time
    · rw [if_pos hov] at ho
      have := List.mem_singleton.mp ho
      subst this
      exact hov
    · rw [if_neg hov] at ho
      exact absurd ho (List.not_mem_nil o)
  | some r =>
    rw [hr] at ho
    dsimp only at ho
    by_cases hf : r.frequency = RecurrenceFrequency.none
    · rw [if_pos hf] at ho
      by_cases hov : task.start.time < we.time ∧ task.«end».time > ws.time
      · rw [if_pos hov] at ho
        have := List.mem_singleton.mp ho
        subst this
        exact hov
      · rw [if_neg hov] at ho
        exact absurd ho (List.not_mem_nil o)
    · rw [if_neg hf] at ho
      have := mem_expandLoop_overlap task ws we r.frequency (r.interval.getD 1)
        r.«until» (task.«end».time - task.start.time) maxIterations task.start o ho
      exact ⟨this.1, this.2.1⟩

theorem mem_generateRecurringTasks (tasks : List Task) (ws we : JSDate)
    (o : Task) (ho : o ∈ generateRecurringTasks tasks ws we) :
    ∃ task ∈ tasks, o ∈ expandTask ws we task := by
  unfold generateRecurringTasks at ho
  rcases List.mem_flatten.mp ho with ⟨l, hl, hol⟩
  rcases List.mem_map.mp hl with ⟨task, htask, rfl⟩
  exact ⟨task, htask, hol⟩

theorem expandLoop_map_occView (t1 t2 : Task) (ws we : JSDate)
    (freq : RecurrenceFrequency) (interval : Int) (untilD : Option JSDate)
    (dur : Int) (hid : t1.id = t2.id)
    (hci : t1.completedInstances = t2.completedInstances) :
    ∀ (fuel : Nat) (s : JSDate),
      (expandLoop t1 ws we freq interval untilD dur fuel s).map occView =
        (expandLoop t2 ws we freq interval untilD dur fuel s).map occView
  | 0, _ => rfl
  | fuel + 1, s => by
    have ih := expandLoop_map_occView t1 t2 ws we freq interval untilD dur hid hci
      fuel (stepDate freq interval s)
    by_cases hc : s.time < we.time ∧ untilOk untilD s
    · by_cases ho : s.time < we.time ∧ s.time + dur > ws.time
      · simp [expandLoop, hc, ho, ih, occView, hid, hci]
      · have ho2 : ¬(ws.time < s.time + dur) := fun hh => ho ⟨hc.1, hh⟩
        simp [expandLoop, hc, hc.1, ho2, ih]
    · simp [expandLoop, hc]

/-! ## C1: the expansion refines the claimed walk -/

/-- C1: for every task list and window with `windowStart <= windowEnd`,
the expansion includes a non-recurring task iff its span overlaps the
window under the half-open rule, and for a recurring task emits exactly
the candidate starts visited by the claimed walk (step by frequency and
interval; stop on `start >= windowEnd`, on a passed `until`, or at 1000
iterations) whose spans overlap the window, with the composite id and the
exact-string completion lookup. -/
theorem generateRecurringTasks_eq_spec (tasks : List Task) (ws we : JSDate)
    (h : ws.time ≤ we.time) :
    generateRecurringTasks tasks ws we =
      (tasks.map (specExpandTask ws we)).flatten := by
  unfold generateRecurringTasks
  congr 1
  exact List.map_congr_left fun task _ => expandTask_eq_spec ws we task

/-- C1 (witness): the refinement at the bounded daily series over the
five-day window. -/
theorem generateRecurringTasks_eq_spec_witness :
    (0 : Int) ≤ 432000000 ∧
      generateRecurringTasks [exDaily] ⟨0⟩ ⟨432000000⟩ =
        (([exDaily]).map (specExpandTask ⟨0⟩ ⟨432000000⟩)).flatten :=
  ⟨by decide, generateRecurringTasks_eq_spec [exDaily] ⟨0⟩ ⟨432000000⟩ (by decide)⟩

/-! ## C4: inverted window -/

/-- C4 (counterexample): with `windowStart > windowEnd` the expansion is
not empty — the non-recurring task spanning `[0, 100)` is still emitted
for the window `(start, end) = (50, 10)`. -/
theorem expand_inverted_window_cex :
    generateRecurringTasks [exPlain] ⟨50⟩ ⟨10⟩ = [exPlain] ∧
      ([exPlain] : List Task) ≠ ([] : List Task) := by
  constructor
  · decide
  · decide

/-- C4 (amended): with `windowStart > windowEnd` the expansion never
fails but need not be empty: it emits exactly the occurrences satisfying
the usual half-open rule, which then must span both bounds. -/
theorem expand_inverted_window_amended (tasks : List Task) (ws we : JSDate)
    (h : we.time < ws.time) :
    ∀ o ∈ generateRecurringTasks tasks ws we,
      o.start.time < we.time ∧ o.«end».time > ws.time := by
  intro o ho
  rcases mem_generateRecurringTasks tasks ws we o ho with ⟨task, _, hmem⟩
  exact mem_expandTask_overlap ws we task o hmem

/-- C4 (witness): the inverted window `(50, 10)` and the emitted spanning
task. -/
theorem expand_inverted_window_amended_witness :
    ((10 : Int) < 50 ∧ exPlain ∈ generateRecurringTasks [exPlain] ⟨50⟩ ⟨10⟩) ∧
      exPlain.start.time < 10 ∧ exPlain.«end».time > 50 :=
  ⟨⟨by decide, by decide⟩,
    expand_inverted_window_amended [exPlain] ⟨50⟩ ⟨10⟩ (by decide) exPlain (by decide)⟩

/-! ## C5: interval defaulting -/

set_option maxRecDepth 200000 in
/-- C5 (counterexample): a present zero interval is *not* normalized to 1.
With interval 0 the daily series never advances past its start and emits
nothing in the second window day, while the identical series with
interval 1 emits two occurrences there; normalization before use would
make the two runs agree. -/
theorem interval_not_normalized_cex :
    generateRecurringTasks [exZero] ⟨86400000⟩ ⟨259200000⟩ = ([] : List Task) ∧
      generateRecurringTasks [exOne] ⟨86400000⟩ ⟨259200000⟩ ≠ ([] : List Task) := by
  constructor
  · decide
  · decide

/-- C5 (amended): the interval is defaulted to 1 only when it is absent
(`undefined`): an absent interval walks exactly as interval 1 does,
producing occurrences with the same identities, spans and completion
flags; a present non-positive interval is used as-is by the step. -/
theorem interval_default_amended (task : Task) (r : RecurrenceConfig)
    (ws we : JSDate) (hr : task.recurrence = some r)
    (hi : r.interval = Option.none)
    (hf : r.frequency ≠ RecurrenceFrequency.none) :
    (generateRecurringTasks [task] ws we).map occView =
      (generateRecurringTasks
          [{ task with recurrence := some { r with interval := some 1 } }] ws we).map
        occView := by
  unfold generateRecurringTasks expandTask
  simp only [List.map_cons, List.map_nil, List.flatten, List.append_nil, hr, hi, hf,
    if_false, Option.getD]
  exact expandLoop_map_occView task
    { task with recurrence := some { r with interval := some 1 } } ws we r.frequency 1
    r.«until» (task.«end».time - task.start.time) rfl rfl maxIterations task.start

/-- C5 (witness): the absent-interval daily series agrees with the
interval-1 series on the five-day window. -/
theorem interval_default_amended_witness :
    (exNoInterval.recurrence = some cfgDailyNoInterval ∧
        cfgDailyNoInterval.interval = Option.none ∧
        cfgDailyNoInterval.frequency ≠ RecurrenceFrequency.none) ∧
      (generateRecurringTasks [exNoInterval] ⟨0⟩ ⟨432000000⟩).map occView =
        (generateRecurringTasks
            [{ exNoInterval with
                recurrence := some { cfgDailyNoInterval with interval := some 1 } }]
            ⟨0⟩ ⟨432000000⟩).map occView :=
  ⟨⟨by decide, by decide, by decide⟩,
    interval_default_amended exNoInterval cfgDailyNoInterval ⟨0⟩ ⟨432000000⟩
      (by decide) (by decide) (by decide)⟩

/-! ## C6: duration preservation -/

/-- C6: every occurrence emitted for a recurring series keeps the series'
duration exactly: `occurrence.end - occurrence.start =
series.end - series.start`. -/
theorem occurrence_duration_preserved (task : Task) (r : RecurrenceConfig)
    (ws we : JSDate) (hr : task.recurrence = some r)
    (hf : r.frequency ≠ RecurrenceFrequency.none) :
    ∀ o ∈ generateRecurringTasks [task] ws we,
      o.«end».time - o.start.time = task.«end».time - task.start.time := by
  intro o ho
  rcases mem_generateRecurringTasks [task] ws we o ho with ⟨task', htask', hmem⟩
  rw [List.mem_singleton.mp htask'] at hmem
  unfold expandTask at hmem
  rw [hr] at hmem
  dsimp only at hmem
  rw [if_neg hf] at hmem
  exact (mem_expandLoop_overlap task ws we r.frequency (r.interval.getD 1)
    r.«until» (task.«end».time - task.start.time) maxIterations task.start o
    hmem).2.2

/-- C6 (witness): the first occurrence of the bounded daily series has the
series' one-hour duration. -/
theorem occurrence_duration_preserved_witness :
    (exDaily.recurrence = some cfgDailyUntil ∧
        cfgDailyUntil.frequency ≠ RecurrenceFrequency.none ∧
        exDailyOcc0 ∈ generateRecurringTasks [exDaily] ⟨0⟩ ⟨432000000⟩) ∧
      exDailyOcc0.«end».time - exDailyOcc0.start.time =
        exDaily.«end».time - exDaily.start.time :=
  ⟨⟨by decide, by decide, by decide⟩,
    occurrence_duration_preserved exDaily cfgDailyUntil ⟨0⟩ ⟨432000000⟩ (by decide)
      (by decide) exDailyOcc0 (by decide)⟩

/-! ## C2: conflict detection -/

/-- C2: `checkConflict` returns true iff some pool member comes from a
different decoded series, neither side is completed, and the spans overlap
strictly (`target.start < t.end ∧ target.end > t.start`) — so touching
spans and same-series occurrences never conflict. -/
theorem checkConflict_iff (target : Task) (pool : List Task) :
    checkConflict target pool = true ↔
      ∃ t ∈ pool,
        (parseVirtualId t.id).1 ≠ (parseVirtualId target.id).1 ∧
          target.completed = false ∧ t.completed = false ∧
          target.start.time < t.«end».time ∧ target.«end».time > t.start.time := by
  unfold checkConflict
  rw [List.any_eq_true]
  refine exists_congr fun t => and_congr_right fun _ => ?_
  by_cases h1 : (parseVirtualId t.id).1 = (parseVirtualId target.id).1
  · simp [h1]
  · by_cases h2 : t.completed
    · simp [h1, h2]
    · by_cases h3 : target.completed
      · simp [h1, h2, h3]
      · simp only [Bool.not_eq_true] at h2 h3
        simp [h1, h2, h3, and_assoc, gt_iff_lt]

theorem formatImportedFrom_length (freshId : Nat → JString) :
    ∀ (k : Nat) (l : List ImportedTask),
      (formatImportedFrom freshId k l).length = l.length
  | _, [] => rfl
  | k, _ :: rest => by
    simp [formatImportedFrom, formatImportedFrom_length freshId (k + 1) rest]

theorem formatImportedFrom_getElem? (freshId : Nat → JString) :
    ∀ (k : Nat) (l : List ImportedTask) (i : Nat),
      (formatImportedFrom freshId k l)[i]? =
        (l[i]?).map (fun t => formatImported (freshId (k + i)) t)
  | _, [], _ => by simp [formatImportedFrom]
  | k, t :: rest, 0 => by simp [formatImportedFrom]
  | k, t :: rest, i + 1 => by
    have ih := formatImportedFrom_getElem? freshId (k + 1) rest i
    simp only [formatImportedFrom, List.getElem?_cons_succ, ih]
    have : k + 1 + i = k + (i + 1) := by omega
    rw [this]

/-! ## C7: batch import defaulting -/

/-- C7 (counterexample): an imported record that explicitly supplies
`reminderMinutes = 0` does not keep its value — JS `|| 15` treats 0 as
falsy, so the admitted task carries 15. -/
theorem batchImport_zero_reminder_cex :
    (handleBatchImport (fun _ => "fresh".toList) [exImported] []).map
        (fun t => t.reminderMinutes) = [15] ∧ (15 : Int) ≠ 0 := by
  constructor
  · decide
  · decide

/-- C7 (amended): batch import appends the formatted batch after the
existing tasks; each admitted record gets the fresh id for its position,
`completed` is always set to `false` (a supplied value is ignored), and
`reminderMinutes` falls back to 15 exactly when the supplied value is
absent *or* zero, keeping any non-zero supplied value; the remaining
supplied fields are admitted unchanged. -/
theorem handleBatchImport_amended (freshId : Nat → JString)
    (newTasks : List ImportedTask) (prev : List Task) :
    (handleBatchImport freshId newTasks prev).length =
        prev.length + newTasks.length ∧
      (∀ j, j < prev.length →
        (handleBatchImport freshId newTasks prev)[j]? = prev[j]?) ∧
      ∀ i t, newTasks[i]? = some t →
        ∃ t', (handleBatchImport freshId newTasks prev)[prev.length + i]? = some t' ∧
          t'.id = freshId i ∧ t'.completed = false ∧
          (t.reminderMinutes = Option.none ∨ t.reminderMinutes = some 0 →
            t'.reminderMinutes = 15) ∧
          (∀ v, t.reminderMinutes = some v → v ≠ 0 → t'.reminderMinutes = v) ∧
          t'.title = t.title ∧ t'.start = t.start ∧ t'.«end» = t.«end» ∧
          t'.priority = t.priority ∧ t'.recurrence = t.recurrence ∧
          t'.completedInstances = Option.none := by
  refine ⟨?_, ?_, ?_⟩
  · unfold handleBatchImport
    rw [List.length_append, formatImportedFrom_length]
  · intro j hj
    unfold handleBatchImport
    rw [List.getElem?_append]
    exact if_pos hj
  · intro i t ht
    unfold handleBatchImport
    rw [List.getElem?_append_right (Nat.le_add_right _ _), Nat.add_sub_cancel_left,
      formatImportedFrom_getElem?, ht]
    refine ⟨formatImported (freshId (0 + i)) t, rfl, ?_⟩
    simp only [Nat.zero_add]
    refine ⟨rfl, rfl, ?_, ?_, rfl, rfl, rfl, rfl, rfl, rfl⟩
    · rintro (hv | hv) <;> simp [formatImported, jsOrNum, hv]
    · intro v hv hv0
      simp [formatImported, jsOrNum, hv, hv0]

/-- C7 (witness): the record supplying `reminderMinutes = 0` is admitted
at position 0 with the defaulted value 15 and `completed = false`. -/
theorem handleBatchImport_amended_witness :
    ([exImported][0]? = some exImported) ∧
      ∃ t', (handleBatchImport (fun _ => "fresh".toList) [exImported] [])[0]? =
          some t' ∧
        t'.id = "fresh".toList ∧ t'.completed = false ∧
        (exImported.reminderMinutes = Option.none ∨
            exImported.reminderMinutes = some 0 →
          t'.reminderMinutes = 15) ∧
        (∀ v, exImported.reminderMinutes = some v → v ≠ 0 →
          t'.reminderMinutes = v) ∧
        t'.title = exImported.title ∧ t'.start = exImported.start ∧
        t'.«end» = exImported.«end» ∧ t'.priority = exImported.priority ∧
        t'.recurrence = exImported.recurrence ∧
        t'.completedInstances = Option.none :=
  ⟨by decide,
    (handleBatchImport_amended (fun _ => "fresh".toList) [exImported] []).2.2 0
      exImported (by decide)⟩

/-! ## Toggle lemmas (C8, C10) -/

theorem toggleOne_ne (p : JString × Option JString) (t : Task) (h : t.id ≠ p.1) :
    toggleOne p t = t := by
  unfold toggleOne
  exact if_pos h

theorem toggleOne_eq_none (p : JString × Option JString) (t : Task)
    (hid : t.id = p.1) (hp : p.2 = Option.none) :
    toggleOne p t = { t with completed := !t.completed } := by
  unfold toggleOne
  rw [hp, if_neg (by simp [hid])]

theorem toggleOne_eq_some (p : JString × Option JString) (t : Task)
    (inst : JString) (hid : t.id = p.1) (hp : p.2 = some inst) :
    toggleOne p t =
      { t with
          completedInstances :=
            some (if (t.completedInstances.getD []).contains inst then
              (t.completedInstances.getD []).filter (fun d => d ≠ inst)
            else (t.completedInstances.getD []) ++ [inst]) } := by
  unfold toggleOne
  rw [hp, if_neg (by simp [hid])]

/-! ## C8: per-instance toggle frame -/

/-- C8: toggling one occurrence of a recurring series (a composite id
decoding to `(oid, some inst)`) leaves every task with a different id
untouched, and on the matched series changes nothing but the membership
of `inst` in `completedInstances`: every other instant's membership, the
`completed` flag and all remaining fields are preserved, while `inst`'s
membership is inverted. -/
theorem handleToggleComplete_frame (tasks : List Task) (target : Task)
    (oid inst : JString) (h : parseVirtualId target.id = (oid, some inst)) :
    (handleToggleComplete tasks target).length = tasks.length ∧
      ∀ (i : Nat) (t : Task), tasks[i]? = some t →
        (t.id ≠ oid → (handleToggleComplete tasks target)[i]? = some t) ∧
        (t.id = oid →
          ∃ t', (handleToggleComplete tasks target)[i]? = some t' ∧
            t'.id = t.id ∧ t'.title = t.title ∧ t'.description = t.description ∧
            t'.start = t.start ∧ t'.«end» = t.«end» ∧
            t'.priority = t.priority ∧
            t'.reminderMinutes = t.reminderMinutes ∧
            t'.recurrence = t.recurrence ∧ t'.completed = t.completed ∧
            (∀ s, s ≠ inst →
              (t'.completedInstances.getD []).contains s =
                (t.completedInstances.getD []).contains s) ∧
            (t'.completedInstances.getD []).contains inst =
              !(t.completedInstances.getD []).contains inst) := by
  constructor
  · unfold handleToggleComplete
    exact List.length_map tasks _
  · intro i t hit
    have hres : (handleToggleComplete tasks target)[i]? =
        some (toggleOne (oid, some inst) t) := by
      unfold handleToggleComplete
      rw [h, List.getElem?_map, hit]
      rfl
    constructor
    · intro hne
      rw [hres, toggleOne_ne (oid, some inst) t hne]
    · intro heq
      refine ⟨toggleOne (oid, some inst) t, hres, ?_⟩
      rw [toggleOne_eq_some (oid, some inst) t inst heq rfl]
      refine ⟨rfl, rfl, rfl, rfl, rfl, rfl, rfl, rfl, rfl, ?_, ?_⟩
      · intro s hs
        by_cases hmem : inst ∈ t.completedInstances.getD []
        · simp [hmem, List.mem_filter, hs]
        · simp [hmem, hs]
      · by_cases hmem : inst ∈ t.completedInstances.getD []
        · simp [hmem, List.mem_filter]
        · simp [hmem]

/-- C8 (witness): toggling the first occurrence of the daily series in the
singleton store keeps the list length. -/
theorem handleToggleComplete_frame_witness :
    parseVirtualId exDailyOcc0.id =
        ("series1".toList, some ("1970-01-01T09:00:00.000Z".toList)) ∧
      (handleToggleComplete [exDaily] exDailyOcc0).length = [exDaily].length :=
  ⟨by decide,
    (handleToggleComplete_frame [exDaily] exDailyOcc0 ("series1".toList)
        ("1970-01-01T09:00:00.000Z".toList) (by decide)).1⟩

/-! ## C10: the toggle is an involution up to instance-set equality -/

/-- C10: applying `handleToggleComplete` twice with the same occurrence
restores the task list up to the order of each `completedInstances`
array: every field other than `completedInstances` (including every
`completed` flag) is restored exactly, and the membership of every
instant string in each series' `completedInstances` is restored. -/
theorem handleToggleComplete_involution (tasks : List Task) (target : Task) :
    (handleToggleComplete (handleToggleComplete tasks target) target).length =
        tasks.length ∧
      ∀ (i : Nat) (t : Task), tasks[i]? = some t →
        ∃ t',
          (handleToggleComplete (handleToggleComplete tasks target) target)[i]? =
              some t' ∧
            t'.id = t.id ∧ t'.title = t.title ∧ t'.description = t.description ∧
            t'.start = t.start ∧ t'.«end» = t.«end» ∧
            t'.priority = t.priority ∧
            t'.reminderMinutes = t.reminderMinutes ∧
            t'.recurrence = t.recurrence ∧ t'.completed = t.completed ∧
            ∀ s, (t'.completedInstances.getD []).contains s =
              (t.completedInstances.getD []).contains s := by
  constructor
  · unfold handleToggleComplete
    rw [List.length_map, List.length_map]
  · intro i t hit
    have hres :
        (handleToggleComplete (handleToggleComplete tasks target) target)[i]? =
          some (toggleOne (parseVirtualId target.id)
            (toggleOne (parseVirtualId target.id) t)) := by
      unfold handleToggleComplete
      rw [List.getElem?_map, List.getElem?_map, hit]
      rfl
    refine ⟨_, hres, ?_⟩
    by_cases hid : t.id = (parseVirtualId target.id).1
    · cases hp : (parseVirtualId target.id).2 with
      | none =>
        rw [toggleOne_eq_none _ t hid hp,
          toggleOne_eq_none _ _ (by simpa using hid) hp]
        simp
      | some inst =>
        rw [toggleOne_eq_some _ t inst hid hp,
          toggleOne_eq_some _ _ inst (by simpa using hid) hp]
        refine ⟨rfl, rfl, rfl, rfl, rfl, rfl, rfl, rfl, rfl, ?_⟩
        intro s
        by_cases hmem : inst ∈ t.completedInstances.getD []
        · by_cases hs : s = inst
          · subst hs
            simp [hmem, List.mem_filter]
          · simp [hmem, List.mem_filter, hs]
        · by_cases hs : s = inst
          · subst hs
            simp [hmem, List.mem_filter]
          · simp [hmem, List.mem_filter, hs]
    · rw [toggleOne_ne _ t hid, toggleOne_ne _ t hid]
      simp

/-- C10 (witness): the double toggle of the first daily occurrence keeps
the list length. -/
theorem handleToggleComplete_involution_witness :
    ([exDaily][0]? = some exDaily) ∧
      (handleToggleComplete (handleToggleComplete [exDaily] exDailyOcc0)
          exDailyOcc0).length = [exDaily].length :=
  ⟨by decide, (handleToggleComplete_involution [exDaily] exDailyOcc0).1⟩

/-! ## Reminder-scanner lemmas (C9) -/

theorem emittedIds_nil (n : List JString) : emittedIds [] n = [] := rfl

theorem emittedIds_cons (tick : TickInput) (rest : List TickInput)
    (n : List JString) :
    emittedIds (tick :: rest) n =
      (checkRemindersTick tick n).1.map (fun t => t.id) ++
        emittedIds rest (checkRemindersTick tick n).2 := rfl

theorem reminderDue_facts {notified : List JString} {now : Int} {t : Task}
    (h : reminderDue notified now t = true) :
    t.completed = false ∧ notified.contains t.id = false ∧
      now ≥ t.start.time - t.reminderMinutes * 60 * 1000 ∧
      now < t.start.time + 60000 := by
  unfold reminderDue at h
  simp only [Bool.and_eq_true, Bool.not_eq_true', decide_eq_true_eq] at h
  exact ⟨h.1.1.1, h.1.1.2, h.1.2, h.2⟩

theorem count_emitted_eq_zero (x : JString) :
    ∀ (ticks : List TickInput) (n : List JString), x ∈ n →
      (emittedIds ticks n).count x = 0
  | [], n, _ => rfl
  | tick :: rest, n, hx => by
    rw [emittedIds_cons, List.count_append]
    have h1 : ((checkRemindersTick tick n).1.map (fun t => t.id)).count x = 0 := by
      rw [List.count_eq_zero]
      intro hmem
      rcases List.mem_map.mp hmem with ⟨t, htmem, rfl⟩
      have hdue := (List.mem_filter.mp htmem).2
      have hnc := (reminderDue_facts hdue).2.1
      simp at hnc
      exact hnc hx
    have h2 : (emittedIds rest (checkRemindersTick tick n).2).count x = 0 :=
      count_emitted_eq_zero x rest _ (List.mem_append_left _ hx)
    rw [h1, h2]

theorem count_le_one_of_nodup :
    ∀ (l : List JString), l.Nodup → ∀ x : JString, l.count x ≤ 1
  | [], _, x => by simp
  | a :: l, h, x => by
    rcases List.nodup_cons.mp h with ⟨ha, hl⟩
    rw [List.count_cons]
    by_cases hx : x = a
    · subst hx
      have h0 : l.count x = 0 := List.count_eq_zero.mpr ha
      simp [h0]
    · have := count_le_one_of_nodup l hl x
      have hax : ¬(a = x) := fun hh => hx hh.symm
      simp only [beq_iff_eq, hx, hax, if_false]
      omega

theorem count_emitted_le_one (x : JString) :
    ∀ (ticks : List TickInput) (n : List JString),
      (∀ tk ∈ ticks,
        ((generateRecurringTasks tk.tasks tk.todayStart tk.todayEnd).map
            (fun t => t.id)).Nodup) →
      (emittedIds ticks n).count x ≤ 1
  | [], n, _ => by simp [emittedIds_nil]
  | tick :: rest, n, hnd => by
    rw [emittedIds_cons, List.count_append]
    have hsub :
        ((checkRemindersTick tick n).1.map (fun t => t.id)).Sublist
          ((generateRecurringTasks tick.tasks tick.todayStart
              tick.todayEnd).map (fun t => t.id)) :=
      (List.filter_sublist _).map _
    have hcount1 : ((checkRemindersTick tick n).1.map (fun t => t.id)).count x ≤ 1 :=
      le_trans (hsub.count_le x)
        (count_le_one_of_nodup _ (hnd tick (List.mem_cons_self _ _)) x)
    by_cases hx1 : x ∈ (checkRemindersTick tick n).1.map (fun t => t.id)
    · have h0 : (emittedIds rest (checkRemindersTick tick n).2).count x = 0 :=
        count_emitted_eq_zero x rest _ (List.mem_append_right _ hx1)
      omega
    · have h0 : ((checkRemindersTick tick n).1.map (fun t => t.id)).count x = 0 :=
        List.count_eq_zero.mpr hx1
      have h2 := count_emitted_le_one x rest (checkRemindersTick tick n).2
        (fun tk htk => hnd tk (List.mem_cons_of_mem _ htk))
      omega

theorem runTicks_conditions :
    ∀ (ticks : List TickInput) (n : List JString) (i : Nat) (tk : TickInput)
      (em : List Task) (t : Task),
      ticks[i]? = some tk → (runTicks ticks n)[i]? = some em → t ∈ em →
        t.completed = false ∧
          (notifiedAfter (List.take i ticks) n).contains t.id = false ∧
          tk.now ≥ t.start.time - t.reminderMinutes * 60 * 1000 ∧
          tk.now < t.start.time + 60000 ∧
          (notifiedAfter (List.take (i + 1) ticks) n).contains t.id = true
  | [], _, i, _, _, _, htk, _, _ => by simp at htk
  | tick :: rest, n, 0, tk, em, t, htk, hem, htmem => by
    simp only [List.getElem?_cons_zero, Option.some_inj] at htk
    unfold runTicks at hem
    simp only [List.getElem?_cons_zero, Option.some_inj] at hem
    subst htk
    subst hem
    have hdue := (List.mem_filter.mp htmem).2
    have hfacts := reminderDue_facts hdue
    refine ⟨hfacts.1, hfacts.2.1, hfacts.2.2.1, hfacts.2.2.2, ?_⟩
    show (checkRemindersTick tick n).2.contains t.id = true
    have hmem : t.id ∈ (checkRemindersTick tick n).2 :=
      List.mem_append_right _ (List.mem_map.mpr ⟨t, htmem, rfl⟩)
    simpa using hmem
  | tick :: rest, n, i + 1, tk, em, t, htk, hem, htmem => by
    simp only [List.getElem?_cons_succ] at htk
    unfold runTicks at hem
    simp only [List.getElem?_cons_succ] at hem
    have ih := runTicks_conditions rest (checkRemindersTick tick n).2 i tk em t
      htk hem htmem
    simpa [List.take_succ_cons, notifiedAfter] using ih

/-! ## C9: reminder emission conditions and once-only delivery -/

/-- C9: on every tick an occurrence is emitted only if it is not
completed, its id is not yet notified, and `now` lies in
`[start - reminderMinutes, start + 60 s)`; every emitted id enters the
notified set for the rest of the run, so (given distinct occurrence ids
per expansion, as the data model's unique series ids provide) at most one
reminder is emitted per occurrence id over any sequence of ticks. -/
theorem reminder_at_most_once (ticks : List TickInput) (n0 : List JString)
    (hnd : ∀ tk ∈ ticks,
      ((generateRecurringTasks tk.tasks tk.todayStart tk.todayEnd).map
          (fun t => t.id)).Nodup) :
    (∀ (i : Nat) (tk : TickInput) (em : List Task) (t : Task),
        ticks[i]? = some tk → (runTicks ticks n0)[i]? = some em → t ∈ em →
          t.completed = false ∧
            (notifiedAfter (List.take i ticks) n0).contains t.id = false ∧
            tk.now ≥ t.start.time - t.reminderMinutes * 60 * 1000 ∧
            tk.now < t.start.time + 60000 ∧
            (notifiedAfter (List.take (i + 1) ticks) n0).contains t.id = true) ∧
      ∀ x, (emittedIds ticks n0).count x ≤ 1 :=
  ⟨fun i tk em t => runTicks_conditions ticks n0 i tk em t,
    fun x => count_emitted_le_one x ticks n0 hnd⟩

theorem exTick_nodup :
    ∀ tk ∈ [exTick],
      ((generateRecurringTasks tk.tasks tk.todayStart tk.todayEnd).map
          (fun t => t.id)).Nodup := by
  intro tk htk
  rw [List.mem_singleton.mp htk]
  have h2 : generateRecurringTasks exTick.tasks exTick.todayStart exTick.todayEnd =
      [exPlain] := by decide
  rw [h2]
  simp

/-- C9 (witness): one tick over the plain task never repeats the
occurrence id. -/
theorem reminder_at_most_once_witness :
    (∀ tk ∈ [exTick],
        ((generateRecurringTasks tk.tasks tk.todayStart tk.todayEnd).map
            (fun t => t.id)).Nodup) ∧
      (emittedIds [exTick] []).count ("series1".toList) ≤ 1 :=
  ⟨exTick_nodup,
    (reminder_at_most_once [exTick] [] exTick_nodup).2 ("series1".toList)⟩

/-- C3 (witness): the amended round-trip at the series id `"abc"` and the
epoch instant. -/
theorem parseVirtualId_amended_witness :
    (noDC ("abc".toList) = true ∧ ("abc".toList).getLast? ≠ some ':' ∧
        noDC ("xyz".toList) = true) ∧
      parseVirtualId (encodeVirtualId ("abc".toList) ⟨0⟩) =
          ("abc".toList, some (JSDate.mk 0).toISOString) ∧
        parseVirtualId ("xyz".toList) = ("xyz".toList, Option.none) :=
  ⟨⟨by decide, by decide, by decide⟩,
    parseVirtualId_amended ("abc".toList) ("xyz".toList) ⟨0⟩ (by decide) (by decide)
      (by decide)⟩

end ChronoPlan
